import Mathlib

/-!
Verification of the TaskMaster to-do application (`src/src/App.tsx`).

The task store and its derived views are embedded shallowly:
* JS timestamps (`Date.now()`, `new Date().getTime()`) are `Nat` milliseconds
  since the epoch; a calendar day is the quotient by `msPerDay` (the embedding
  fixes the UTC locale, so `toDateString` equality is equality of day indices).
* The `dueDate` field, an ISO `"YYYY-MM-DD"` string or `""` in the source, is
  `Option Timestamp`: `none` models the empty string and `some t` models a
  date string parsing to the timestamp `t`.
* JS `String.prototype.trim` is modelled by `jsTrim` (drop leading and
  trailing whitespace characters).
* The early-`return` guards of `addTask`/`updateTask` make those operations
  fallible; they are embedded as `Option`-returning functions where `none` is
  the rejected call, and `step` interprets a rejected call as leaving the
  collection unchanged.
* `Array.prototype.sort` is stable, so `.sort(cmp)` is embedded as the stable
  `List.insertionSort` with the relation `cmp a b ≤ 0`.
-/

namespace TodoApp

/-- Milliseconds in a calendar day. -/
def msPerDay : Nat := 86400000

/-- Milliseconds since the epoch. -/
abbrev Timestamp := Nat

/-- Calendar-day index of a timestamp (models `Date.toDateString` equality:
two timestamps render the same date string iff they have the same day index). -/
def dayOf (t : Timestamp) : Nat := t / msPerDay

/-- Model of JS `String.prototype.trim`: remove leading and trailing
whitespace. -/
def jsTrim (s : String) : String :=
  String.mk (((s.toList.dropWhile Char.isWhitespace).reverse.dropWhile
    Char.isWhitespace).reverse)

/-- `'low' | 'medium' | 'high'` (App.tsx line 26). -/
inductive Priority where
  | low
  | medium
  | high
deriving DecidableEq

/-- `priorityOrder = { high: 3, medium: 2, low: 1 }` (App.tsx line 195). -/
def priorityOrder : Priority → Nat
  | .high => 3
  | .medium => 2
  | .low => 1

/-- The `Task` interface (App.tsx lines 21-31).  `completedAt?` is optional in
the source, hence `Option`. -/
structure Task where
  id : String
  title : String
  description : String
  completed : Bool
  priority : Priority
  category : String
  dueDate : Option Timestamp
  createdAt : Timestamp
  completedAt : Option Timestamp
deriving DecidableEq

/-- The draft record produced by the form (`formData`, App.tsx lines 70-76). -/
structure FormData where
  title : String
  description : String
  priority : Priority
  category : String
  dueDate : Option Timestamp
deriving DecidableEq

/-- The task built by `addTask` (App.tsx lines 94-103): `id` is
`Date.now().toString()`, `createdAt` the same instant, `completed: false`,
and `completedAt` is omitted (absent). -/
def newTask (form : FormData) (now : Timestamp) : Task :=
  { id := toString now
    title := jsTrim form.title
    description := jsTrim form.description
    completed := false
    priority := form.priority
    category := form.category
    dueDate := form.dueDate
    createdAt := now
    completedAt := none }

/-- `addTask` (App.tsx lines 91-108): the guard
`if (!formData.title.trim()) return;` rejects a blank title (`none`);
otherwise the new task is prepended (`setTasks(prev => [newTask, ...prev])`). -/
def addTask (form : FormData) (now : Timestamp) (tasks : List Task) :
    Option (List Task) :=
  if jsTrim form.title = "" then none
  else some (newTask form now :: tasks)

/-- The per-task update of `updateTask` (App.tsx lines 113-124): a task whose
`id` matches keeps `id`, `createdAt`, `completed`, `completedAt` (object
spread) and receives the draft fields; any other task is returned unchanged. -/
def updateOne (i : String) (form : FormData) (t : Task) : Task :=
  if t.id = i then
    { t with
      title := jsTrim form.title
      description := jsTrim form.description
      priority := form.priority
      category := form.category
      dueDate := form.dueDate }
  else t

/-- `updateTask` (App.tsx lines 110-128): the guard
`if (!editingTask || !formData.title.trim()) return;` rejects a blank title;
otherwise every task is mapped through `updateOne` with the editing id `i`. -/
def updateTask (i : String) (form : FormData) (tasks : List Task) :
    Option (List Task) :=
  if jsTrim form.title = "" then none
  else some (tasks.map (updateOne i form))

/-- The per-task toggle of `toggleTask` (App.tsx lines 131-139): flips
`completed`; `completedAt` becomes the current instant when the task was
incomplete and `undefined` (absent) when it was complete. -/
def toggleOne (i : String) (now : Timestamp) (t : Task) : Task :=
  if t.id = i then
    { t with
      completed := !t.completed
      completedAt := if t.completed then none else some now }
  else t

/-- `toggleTask` (App.tsx lines 130-140). -/
def toggleTask (i : String) (now : Timestamp) (tasks : List Task) : List Task :=
  tasks.map (toggleOne i now)

/-- `deleteTask` (App.tsx lines 142-144):
`prev.filter(task => task.id !== id)`. -/
def deleteTask (i : String) (tasks : List Task) : List Task :=
  tasks.filter (fun t => t.id ≠ i)

/-- `isOverdue` (App.tsx lines 230-233):
`new Date(dueDate) < new Date() && new Date(dueDate).toDateString() !== new Date().toDateString()`,
and `false` for the empty due-date string. -/
def isOverdue (dueDate : Option Timestamp) (now : Timestamp) : Bool :=
  match dueDate with
  | none => false
  | some d => decide (d < now) && decide (dayOf d ≠ dayOf now)

/-- The overdue classification at the display call site (App.tsx lines
539-553): `isOverdue(task.dueDate) && !task.completed`. -/
def overdueDisplay (t : Task) (now : Timestamp) : Bool :=
  isOverdue t.dueDate now && !t.completed

/-- `stats.total` (App.tsx line 211). -/
def statsTotal (tasks : List Task) : Nat := tasks.length

/-- `stats.completed` (App.tsx line 212). -/
def statsCompleted (tasks : List Task) : Nat :=
  (tasks.filter (fun t => t.completed)).length

/-- `stats.active` (App.tsx line 213). -/
def statsActive (tasks : List Task) : Nat :=
  (tasks.filter (fun t => !t.completed)).length

/-- `stats.overdue` (App.tsx line 214): the inline check
`!t.completed && t.dueDate && new Date(t.dueDate) < new Date()` — a raw
timestamp comparison with no calendar-day normalization. -/
def statsOverdue (tasks : List Task) (now : Timestamp) : Nat :=
  (tasks.filter (fun t =>
    !t.completed && match t.dueDate with
      | none => false
      | some d => decide (d < now))).length

/-- The overdue count the spec prescribes for the stats card: the number of
incomplete tasks satisfying the shared day-granularity predicate (`isOverdue`
combined with the `!task.completed` conjunct of its call site). -/
def overdueCountSpec (tasks : List Task) (now : Timestamp) : Nat :=
  (tasks.filter (fun t => overdueDisplay t now)).length

-- ### Theorems

/-- Day-granularity reading of the `isOverdue` test: a timestamp is strictly
below `now` and renders a different calendar day exactly when its day index is
strictly smaller. -/
theorem lt_and_day_ne_iff (d n : Timestamp) :
    (d < n ∧ dayOf d ≠ dayOf n) ↔ dayOf d < dayOf n := by
  unfold dayOf
  constructor
  · rintro ⟨h1, h2⟩
    exact lt_of_le_of_ne (Nat.div_le_div_right h1.le) h2
  · intro h
    refine ⟨?_, Nat.ne_of_lt h⟩
    by_contra hc
    push_neg at hc
    exact absurd (Nat.div_le_div_right hc) (Nat.not_le.mpr h)

/-- C2: the overdue classification is false when the due date is absent or the
task is completed, and otherwise holds iff the calendar day of the due date is
strictly before the calendar day of `now`; in particular a task due on the
current calendar day is never classified overdue, whatever the time of day. -/
theorem overdueDisplay_iff_day_lt (t : Task) (now : Timestamp) :
    overdueDisplay t now = true ↔
      t.completed = false ∧ ∃ d, t.dueDate = some d ∧ dayOf d < dayOf now := by
  unfold overdueDisplay isOverdue
  cases hd : t.dueDate with
  | none => simp
  | some d =>
    simp only [Bool.and_eq_true, decide_eq_true_eq, Bool.not_eq_true',
      Option.some.injEq]
    constructor
    · rintro ⟨⟨h1, h2⟩, hc⟩
      exact ⟨hc, d, rfl, (lt_and_day_ne_iff d now).mp ⟨h1, h2⟩⟩
    · rintro ⟨hc, d', hd', hlt⟩
      cases hd'
      exact ⟨(lt_and_day_ne_iff d now).mpr hlt, hc⟩

/-- The C1 failing input: an incomplete task due at the midnight timestamp `0`,
observed at `now = 1`, one millisecond into the same calendar day. -/
def c1Task : Task :=
  { id := "1"
    title := "t"
    description := ""
    completed := false
    priority := .medium
    category := "Personal"
    dueDate := some 0
    createdAt := 0
    completedAt := none }

/-- C1 (code bug): at the failing input, the code's stats counter counts the
same-calendar-day task as overdue (`statsOverdue = 1`) while the shared
day-granularity predicate of the spec counts none (`overdueCountSpec = 0`). -/
theorem statsOverdue_counts_same_day :
    statsOverdue [c1Task] 1 = 1 ∧ overdueCountSpec [c1Task] 1 = 0 := by
  constructor <;> rfl

/-- Decimal value of a digit character. -/
def digitVal (c : Char) : Nat := c.toNat - 48

/-- Decode a list of decimal digit characters, most significant first. -/
def decodeDigits (acc : Nat) (l : List Char) : Nat :=
  l.foldl (fun a c => a * 10 + digitVal c) acc

theorem digitVal_digitChar (m : Nat) (hm : m < 10) :
    digitVal (Nat.digitChar m) = m := by
  interval_cases m <;> rfl

theorem decodeDigits_toDigitsCore :
    ∀ (fuel n : Nat) (ds : List Char), n < fuel →
      decodeDigits 0 (Nat.toDigitsCore 10 fuel n ds) = decodeDigits n ds := by
  intro fuel
  induction fuel with
  | zero => intro n ds h; omega
  | succ f ih =>
    intro n ds h
    rw [Nat.toDigitsCore]
    by_cases h0 : n / 10 = 0
    · rw [if_pos h0]
      have hn : n < 10 := by omega
      have : decodeDigits 0 (Nat.digitChar (n % 10) :: ds) = decodeDigits (n % 10) ds := by
        simp [decodeDigits, List.foldl, digitVal_digitChar (n % 10) (Nat.mod_lt n (by omega))]
      rw [this, Nat.mod_eq_of_lt hn]
    · rw [if_neg h0]
      have hpos : 0 < n := by
        rcases Nat.eq_zero_or_pos n with h' | h'
        · subst h'; simp at h0
        · exact h'
      have hlt : n / 10 < f := by
        have := Nat.div_lt_self hpos (by omega : 1 < 10)
        omega
      rw [ih (n / 10) (Nat.digitChar (n % 10) :: ds) hlt]
      have hstep : decodeDigits (n / 10) (Nat.digitChar (n % 10) :: ds) =
          decodeDigits (n / 10 * 10 + n % 10) ds := by
        simp [decodeDigits, List.foldl,
          digitVal_digitChar (n % 10) (by omega : n % 10 < 10)]
      have hn : n / 10 * 10 + n % 10 = n := by omega
      rw [hstep, hn]

theorem decodeDigits_toDigits (n : Nat) :
    decodeDigits 0 (Nat.toDigits 10 n) = n := by
  have h := decodeDigits_toDigitsCore (n + 1) n [] (Nat.lt_succ_self n)
  simpa [Nat.toDigits, decodeDigits] using h

/-- The decimal rendering used for task ids (`Date.now().toString()`) is
injective: distinct timestamps render to distinct strings. -/
theorem toString_nat_inj {m n : Nat} (h : toString m = toString n) : m = n := by
  have hd : Nat.toDigits 10 m = Nat.toDigits 10 n := congrArg String.data h
  have h1 := decodeDigits_toDigits m
  have h2 := decodeDigits_toDigits n
  rw [hd] at h1
  omega

/-- A first draft, for the C3 counterexample. -/
def c3FormA : FormData :=
  { title := "a", description := "", priority := .medium,
    category := "Personal", dueDate := none }

/-- A second, different draft, for the C3 counterexample. -/
def c3FormB : FormData :=
  { title := "b", description := "", priority := .medium,
    category := "Personal", dueDate := none }

/-- C3 (counterexample): two successful creates within the same instant
(`Date.now() = 5` for both) produce two distinct tasks that share the id
`"5"`, so the created tasks do not receive distinct ids and id uniqueness
fails across the resulting collection. -/
theorem addTask_same_instant_id_collision :
    addTask c3FormA 5 [] = some [newTask c3FormA 5] ∧
    addTask c3FormB 5 [newTask c3FormA 5] =
      some [newTask c3FormB 5, newTask c3FormA 5] ∧
    (newTask c3FormB 5).id = (newTask c3FormA 5).id ∧
    newTask c3FormB 5 ≠ newTask c3FormA 5 := by
  refine ⟨rfl, rfl, rfl, ?_⟩
  decide

/-- C3 (amended): two successful create calls occurring at distinct instants
(distinct `Date.now()` millisecond readings) receive distinct id values; the
guarantee does not extend to calls within the same instant. -/
theorem addTask_distinct_instants_distinct_ids
    (f1 f2 : FormData) (n1 n2 : Timestamp) (l1 l2 r1 r2 : List Task)
    (t1 t2 : Task)
    (h1 : addTask f1 n1 l1 = some (t1 :: r1))
    (h2 : addTask f2 n2 l2 = some (t2 :: r2))
    (hne : n1 ≠ n2) : t1.id ≠ t2.id := by
  unfold addTask at h1 h2
  split at h1
  · exact absurd h1 (by simp)
  · split at h2
    · exact absurd h2 (by simp)
    · simp only [Option.some.injEq, List.cons.injEq] at h1 h2
      intro hid
      rw [← h1.1, ← h2.1] at hid
      exact hne (toString_nat_inj hid)

/-- Witness for the amended C3 theorem: creates at the distinct instants `5`
and `6` yield ids `"5"` and `"6"`, which differ. -/
theorem addTask_distinct_instants_witness :
    addTask c3FormA 5 [] = some (newTask c3FormA 5 :: []) ∧
    addTask c3FormA 6 [] = some (newTask c3FormA 6 :: []) ∧
    (5 : Timestamp) ≠ 6 ∧
    (newTask c3FormA 5).id ≠ (newTask c3FormA 6).id :=
  ⟨rfl, rfl, by decide,
    addTask_distinct_instants_distinct_ids c3FormA c3FormA 5 6 [] [] [] []
      (newTask c3FormA 5) (newTask c3FormA 6) rfl rfl (by decide)⟩

/-- A user action against the store. -/
inductive Op where
  | add (form : FormData) (now : Timestamp)
  | update (i : String) (form : FormData)
  | toggle (i : String) (now : Timestamp)
  | delete (i : String)

/-- Effect of one action on the collection; a rejected `add`/`update` (the
code's early `return`) leaves the collection unchanged. -/
def step (op : Op) (tasks : List Task) : List Task :=
  match op with
  | .add form now => (addTask form now tasks).getD tasks
  | .update i form => (updateTask i form tasks).getD tasks
  | .toggle i now => toggleTask i now tasks
  | .delete i => deleteTask i tasks

/-- The collection reached by a sequence of actions from the empty store. -/
def run (ops : List Op) : List Task :=
  ops.foldl (fun s op => step op s) []

/-- The spec invariant: `completedAt` is present iff `completed` is true. -/
def completedIffCompletedAt (tasks : List Task) : Prop :=
  ∀ t ∈ tasks, t.completedAt.isSome = t.completed

theorem step_preserves_inv (op : Op) (tasks : List Task)
    (h : completedIffCompletedAt tasks) :
    completedIffCompletedAt (step op tasks) := by
  cases op with
  | add form now =>
    simp only [step, addTask]
    split
    · exact h
    · intro t ht
      rcases List.mem_cons.mp ht with rfl | ht'
      · rfl
      · exact h t ht'
  | update i form =>
    simp only [step, updateTask]
    split
    · exact h
    · intro t ht
      simp only [Option.getD_some] at ht
      rcases List.mem_map.mp ht with ⟨s, hs, rfl⟩
      unfold updateOne
      split
      · exact h s hs
      · exact h s hs
  | toggle i now =>
    intro t ht
    rcases List.mem_map.mp ht with ⟨s, hs, rfl⟩
    unfold toggleOne
    split
    · cases hc : s.completed <;> simp [hc]
    · exact h s hs
  | delete i =>
    intro t ht
    exact h t (List.mem_of_mem_filter ht)

theorem foldl_preserves_inv (ops : List Op) :
    ∀ init, completedIffCompletedAt init →
      completedIffCompletedAt (ops.foldl (fun s op => step op s) init) := by
  induction ops with
  | nil => intro init h; exact h
  | cons op rest ih =>
    intro init h
    exact ih (step op init) (step_preserves_inv op init h)

/-- C4: after any sequence of create/update/toggle/delete actions from the
empty collection, every task in the snapshot has `completedAt` present iff
`completed` is true (creation starts at `completed = false` with `completedAt`
absent; toggling to true sets it to the toggle instant; toggling back to false
restores absence). -/
theorem run_completed_iff_completedAt (ops : List Op) :
    completedIffCompletedAt (run ops) :=
  foldl_preserves_inv ops [] (by intro t ht; simp at ht)

/-- A whitespace-only draft title, for the C5 witness. -/
def c5Form : FormData :=
  { title := "   ", description := "d", priority := .low,
    category := "Work", dueDate := none }

/-- C5: when the draft title trims to the empty string, `addTask` and
`updateTask` both reject the call (the guard's early `return`, embedded as
`none`) and the collection after the action is unchanged. -/
theorem blank_title_rejected (form : FormData) (i : String) (now : Timestamp)
    (tasks : List Task) (h : jsTrim form.title = "") :
    addTask form now tasks = none ∧ updateTask i form tasks = none ∧
    step (.add form now) tasks = tasks ∧ step (.update i form) tasks = tasks := by
  refine ⟨?_, ?_, ?_, ?_⟩ <;> simp [addTask, updateTask, step, h]

/-- Witness for C5: the whitespace-only title `"   "` is rejected by both
operations on the empty collection. -/
theorem blank_title_rejected_witness :
    jsTrim c5Form.title = "" ∧
    (addTask c5Form 0 [] = none ∧ updateTask "1" c5Form [] = none ∧
      step (.add c5Form 0) [] = [] ∧ step (.update "1" c5Form) [] = []) :=
  ⟨by decide, blank_title_rejected c5Form "1" 0 [] (by decide)⟩

/-- A valid draft, for the C6 counterexample and witness. -/
def c6Form : FormData :=
  { title := "t", description := "", priority := .medium,
    category := "Personal", dueDate := none }

/-- C6 (counterexample): with no task of id `"1"` present, `updateTask`
returns successfully (`some`, the code's success path — no error of any kind
is raised) and `toggleTask` likewise completes as a no-op, so neither
operation fails with a `NotFoundError`. -/
theorem missing_id_no_error :
    updateTask "1" c6Form [] = some [] ∧ toggleTask "1" 0 [] = [] :=
  ⟨rfl, rfl⟩

theorem map_eq_self_of_eq {α : Type} (f : α → α) (l : List α)
    (h : ∀ a ∈ l, f a = a) : l.map f = l := by
  induction l with
  | nil => rfl
  | cons a t ih =>
    rw [List.map_cons, h a (List.mem_cons_self a t),
      ih (fun b hb => h b (List.mem_cons_of_mem a hb))]

/-- C6 (amended): `updateTask` (with a valid title) and `toggleTask` on an id
absent from the collection raise no error: they are silent no-ops — the update
takes its success path and both leave the collection unchanged. -/
theorem missing_id_noop (i : String) (form : FormData) (now : Timestamp)
    (tasks : List Task) (habs : ∀ t ∈ tasks, t.id ≠ i)
    (hv : jsTrim form.title ≠ "") :
    updateTask i form tasks = some tasks ∧ toggleTask i now tasks = tasks := by
  constructor
  · unfold updateTask
    rw [if_neg hv, map_eq_self_of_eq (updateOne i form) tasks]
    intro t ht
    unfold updateOne
    rw [if_neg (habs t ht)]
  · unfold toggleTask
    rw [map_eq_self_of_eq (toggleOne i now) tasks]
    intro t ht
    unfold toggleOne
    rw [if_neg (habs t ht)]

/-- A task whose id differs from the missing id `"1"`, for the C6 witness. -/
def c6Task : Task :=
  { id := "2"
    title := "x"
    description := ""
    completed := false
    priority := .low
    category := "Work"
    dueDate := none
    createdAt := 0
    completedAt := none }

/-- Witness for the amended C6 theorem: on the one-task collection `[c6Task]`
(id `"2"`), update and toggle aimed at the absent id `"1"` are no-ops. -/
theorem missing_id_noop_witness :
    (∀ t ∈ [c6Task], t.id ≠ "1") ∧ jsTrim c6Form.title ≠ "" ∧
    (updateTask "1" c6Form [c6Task] = some [c6Task] ∧
      toggleTask "1" 3 [c6Task] = [c6Task]) :=
  ⟨by decide, by decide,
    missing_id_noop "1" c6Form 3 [c6Task] (by decide) (by decide)⟩

/-- `'created' | 'priority' | 'dueDate' | 'alphabetical'` (App.tsx line 34). -/
inductive SortType where
  | created
  | priority
  | dueDate
  | alphabetical
deriving DecidableEq

/-- The `dueDate` branch of the comparator (App.tsx lines 197-201): both
absent compare equal, an absent date sorts after any present one, and two
present dates compare by timestamp difference. -/
def cmpDue (x y : Option Timestamp) : Int :=
  match x, y with
  | none, none => 0
  | none, some _ => 1
  | some _, none => -1
  | some ta, some tb => (ta : Int) - (tb : Int)

/-- The comparator passed to `.sort` (App.tsx lines 192-208).  `localeCompare`
on titles is modelled by lexicographic string comparison. -/
def cmpTasks : SortType → Task → Task → Int
  | .priority, a, b =>
    (priorityOrder b.priority : Int) - (priorityOrder a.priority : Int)
  | .dueDate, a, b => cmpDue a.dueDate b.dueDate
  | .alphabetical, a, b =>
    if a.title < b.title then -1 else if b.title < a.title then 1 else 0
  | .created, a, b => (b.createdAt : Int) - (a.createdAt : Int)

/-- The ordering relation induced by the comparator: `a` may precede `b`
exactly when the comparator is nonpositive. -/
def sortLE (sb : SortType) (a b : Task) : Prop := cmpTasks sb a b ≤ 0

instance (sb : SortType) : DecidableRel (sortLE sb) :=
  fun a b => Int.decLe (cmpTasks sb a b) 0

/-- `Array.prototype.sort` is stable; the sorting stage of `filteredTasks` is
embedded as the stable insertion sort under `sortLE`. -/
def sortTasks (sb : SortType) (tasks : List Task) : List Task :=
  tasks.insertionSort (sortLE sb)

instance : IsTotal Task (sortLE .priority) :=
  ⟨fun a b => by simp only [sortLE, cmpTasks]; omega⟩

instance : IsTrans Task (sortLE .priority) :=
  ⟨fun a b c h1 h2 => by
    simp only [sortLE, cmpTasks] at h1 h2 ⊢
    omega⟩

theorem cmpDue_total (x y : Option Timestamp) :
    cmpDue x y ≤ 0 ∨ cmpDue y x ≤ 0 := by
  cases x <;> cases y <;> (simp only [cmpDue]; omega)

theorem cmpDue_trans (x y z : Option Timestamp)
    (h1 : cmpDue x y ≤ 0) (h2 : cmpDue y z ≤ 0) : cmpDue x z ≤ 0 := by
  cases x <;> cases y <;> cases z <;> (simp only [cmpDue] at h1 h2 ⊢; omega)

instance : IsTotal Task (sortLE .dueDate) :=
  ⟨fun a b => cmpDue_total a.dueDate b.dueDate⟩

instance : IsTrans Task (sortLE .dueDate) :=
  ⟨fun a b c h1 h2 => cmpDue_trans a.dueDate b.dueDate c.dueDate h1 h2⟩

theorem filter_orderedInsert_of_pos {α : Type} (r : α → α → Prop)
    [DecidableRel r] (p : α → Bool) (a : α) (l : List α) (ha : p a = true)
    (hl : ∀ b ∈ l, p b = true → r a b) :
    (List.orderedInsert r a l).filter p = a :: l.filter p := by
  induction l with
  | nil => simp [List.orderedInsert, ha]
  | cons b t ih =>
    by_cases hab : r a b
    · rw [List.orderedInsert, if_pos hab, List.filter_cons_of_pos ha]
    · have hpb : p b = false := by
        cases hb : p b
        · rfl
        · exact absurd (hl b (List.mem_cons_self b t) hb) hab
      rw [List.orderedInsert, if_neg hab, List.filter_cons_of_neg (by simp [hpb]),
        List.filter_cons_of_neg (by simp [hpb])]
      exact ih (fun c hc hpc => hl c (List.mem_cons_of_mem b hc) hpc)

theorem filter_orderedInsert_of_neg {α : Type} (r : α → α → Prop)
    [DecidableRel r] (p : α → Bool) (a : α) (l : List α) (ha : p a = false) :
    (List.orderedInsert r a l).filter p = l.filter p := by
  induction l with
  | nil => simp [List.orderedInsert, ha]
  | cons b t ih =>
    by_cases hab : r a b
    · rw [List.orderedInsert, if_pos hab, List.filter_cons_of_neg (by simp [ha])]
    · cases hb : p b
      · rw [List.orderedInsert, if_neg hab, List.filter_cons_of_neg (by simp [hb]),
          List.filter_cons_of_neg (by simp [hb]), ih]
      · rw [List.orderedInsert, if_neg hab, List.filter_cons_of_pos hb,
          List.filter_cons_of_pos hb, ih]

/-- Stability of the embedded sort, phrased through filters: restricting the
sorted output to any class of mutually tied elements reproduces that class in
input order. -/
theorem filter_insertionSort_eq {α : Type} (r : α → α → Prop) [DecidableRel r]
    (p : α → Bool) (l : List α) (hp : ∀ x y, p x = true → p y = true → r x y) :
    (List.insertionSort r l).filter p = l.filter p := by
  induction l with
  | nil => rfl
  | cons a t ih =>
    rw [List.insertionSort]
    cases ha : p a
    · rw [filter_orderedInsert_of_neg r p a _ ha, ih,
        List.filter_cons_of_neg (by simp [ha])]
    · rw [filter_orderedInsert_of_pos r p a _ ha
        (fun b _ hpb => hp a b ha hpb), ih, List.filter_cons_of_pos ha]

/-- Tasks for the C7 example: creation-order priorities
`[low, high, medium, high]`. -/
def c7Task (n : Nat) (pr : Priority) : Task :=
  { id := toString n
    title := toString n
    description := ""
    completed := false
    priority := pr
    category := "Personal"
    dueDate := none
    createdAt := n
    completedAt := none }

/-- C7: sorting with `sortKey = priority` permutes the input, orders it by
descending rank (`high = 3, medium = 2, low = 1`), keeps tasks of equal rank
in their input order (stability, phrased per rank class through `filter`), and
on the example `[low, high, medium, high]` yields the two `high` tasks first
in their original relative order, then `medium`, then `low`. -/
theorem sortTasks_priority_correct (l : List Task) :
    (sortTasks .priority l).Perm l ∧
    (sortTasks .priority l).Pairwise
      (fun a b => priorityOrder b.priority ≤ priorityOrder a.priority) ∧
    (∀ pr : Priority,
      (sortTasks .priority l).filter (fun t => t.priority = pr) =
        l.filter (fun t => t.priority = pr)) ∧
    sortTasks .priority
        [c7Task 1 .low, c7Task 2 .high, c7Task 3 .medium, c7Task 4 .high] =
      [c7Task 2 .high, c7Task 4 .high, c7Task 3 .medium, c7Task 1 .low] := by
  refine ⟨List.perm_insertionSort _ l, ?_, ?_, by decide⟩
  · have hs := List.sorted_insertionSort (sortLE .priority) l
    exact List.Pairwise.imp
      (fun hab => by
        simp only [sortLE, cmpTasks] at hab
        omega) hs
  · intro pr
    apply filter_insertionSort_eq
    intro x y hx hy
    simp only [decide_eq_true_eq] at hx hy
    simp only [sortLE, cmpTasks, hx, hy]
    omega

/-- C8: sorting with `sortKey = dueDate` permutes the input and orders it so
that tasks with due dates come first in ascending date order, every task
without a due date comes after all tasks that have one (a `none`-before-`some`
pair is impossible in the output), and tasks sharing the same due-date value —
in particular all tasks without one — keep their input order (stability per
due-date class through `filter`). -/
theorem sortTasks_dueDate_correct (l : List Task) :
    (sortTasks .dueDate l).Perm l ∧
    (sortTasks .dueDate l).Pairwise (fun a b =>
      match a.dueDate, b.dueDate with
      | some ta, some tb => ta ≤ tb
      | some _, none => True
      | none, some _ => False
      | none, none => True) ∧
    ∀ d : Option Timestamp,
      (sortTasks .dueDate l).filter (fun t => t.dueDate = d) =
        l.filter (fun t => t.dueDate = d) := by
  refine ⟨List.perm_insertionSort _ l, ?_, ?_⟩
  · have hs := List.sorted_insertionSort (sortLE .dueDate) l
    refine List.Pairwise.imp (fun hab => ?_) hs
    revert hab
    simp only [sortLE, cmpTasks]
    rename_i a b
    cases a.dueDate <;> cases b.dueDate <;> simp [cmpDue]
  · intro d
    apply filter_insertionSort_eq
    intro x y hx hy
    simp only [decide_eq_true_eq] at hx hy
    simp only [sortLE, cmpTasks, hx, hy]
    cases d <;> simp [cmpDue]

theorem forall₂_map_self {α β : Type} (R : α → β → Prop) (f : α → β)
    (l : List α) (h : ∀ a ∈ l, R a (f a)) : List.Forall₂ R l (l.map f) := by
  induction l with
  | nil => exact List.Forall₂.nil
  | cons a t ih =>
    exact List.Forall₂.cons (h a (List.mem_cons_self a t))
      (ih (fun b hb => h b (List.mem_cons_of_mem a hb)))

/-- C9: a successful `updateTask` pairs input and output positionwise so that
every task keeps its `id`, `createdAt`, `completed` and `completedAt`; a task
matching the edited id receives exactly the draft `title` (trimmed),
`description` (trimmed), `priority`, `category` and `dueDate`; and every task
not matching the id is left entirely unchanged. -/
theorem updateTask_frame (i : String) (form : FormData) (tasks : List Task)
    (hv : jsTrim form.title ≠ "") :
    ∃ l', updateTask i form tasks = some l' ∧
      List.Forall₂ (fun t t' =>
        t'.id = t.id ∧ t'.createdAt = t.createdAt ∧
        t'.completed = t.completed ∧ t'.completedAt = t.completedAt ∧
        (t.id = i → t'.title = jsTrim form.title ∧
          t'.description = jsTrim form.description ∧
          t'.priority = form.priority ∧ t'.category = form.category ∧
          t'.dueDate = form.dueDate) ∧
        (t.id ≠ i → t' = t)) tasks l' := by
  refine ⟨tasks.map (updateOne i form), by simp [updateTask, hv], ?_⟩
  apply forall₂_map_self
  intro t _
  unfold updateOne
  by_cases h : t.id = i
  · rw [if_pos h]
    exact ⟨rfl, rfl, rfl, rfl, fun _ => ⟨rfl, rfl, rfl, rfl, rfl⟩,
      fun hne => absurd h hne⟩
  · rw [if_neg h]
    exact ⟨rfl, rfl, rfl, rfl, fun hc => absurd hc h, fun _ => rfl⟩

/-- A valid draft, for the C9 witness. -/
def c9Form : FormData :=
  { title := " new ", description := " d ", priority := .high,
    category := "Work", dueDate := some 7 }

/-- A pre-existing completed task, for the C9 witness. -/
def c9Task : Task :=
  { id := "9"
    title := "old"
    description := "od"
    completed := true
    priority := .low
    category := "Personal"
    dueDate := none
    createdAt := 2
    completedAt := some 3 }

/-- Witness for C9: updating the one-task collection `[c9Task]` at its own id
`"9"` with the valid draft `c9Form`. -/
theorem updateTask_frame_witness :
    jsTrim c9Form.title ≠ "" ∧
    ∃ l', updateTask "9" c9Form [c9Task] = some l' ∧
      List.Forall₂ (fun t t' =>
        t'.id = t.id ∧ t'.createdAt = t.createdAt ∧
        t'.completed = t.completed ∧ t'.completedAt = t.completedAt ∧
        (t.id = "9" → t'.title = jsTrim c9Form.title ∧
          t'.description = jsTrim c9Form.description ∧
          t'.priority = c9Form.priority ∧ t'.category = c9Form.category ∧
          t'.dueDate = c9Form.dueDate) ∧
        (t.id ≠ "9" → t' = t)) [c9Task] l' :=
  ⟨by decide, updateTask_frame "9" c9Form [c9Task] (by decide)⟩

/-- C10: on a successful create, the stored task's `description` is the
draft's description with leading and trailing whitespace removed (so a
whitespace-only description is stored as the empty string); likewise a
successful update stores the trimmed description on every task matching the
edited id. -/
theorem description_trimmed (form : FormData) (i : String) (now : Timestamp)
    (tasks : List Task) (hv : jsTrim form.title ≠ "") :
    (∃ t rest, addTask form now tasks = some (t :: rest) ∧
      t.description = jsTrim form.description) ∧
    ∃ l', updateTask i form tasks = some l' ∧
      List.Forall₂ (fun t t' => t.id = i →
        t'.description = jsTrim form.description) tasks l' := by
  constructor
  · exact ⟨newTask form now, tasks, by simp [addTask, hv], rfl⟩
  · refine ⟨tasks.map (updateOne i form), by simp [updateTask, hv], ?_⟩
    apply forall₂_map_self
    intro t _ hti
    unfold updateOne
    rw [if_pos hti]

/-- A draft whose description is whitespace-only, for the C10 witness: it is
stored as the empty string. -/
def c10Form : FormData :=
  { title := "t", description := "   ", priority := .medium,
    category := "Other", dueDate := none }

/-- Witness for C10: creating and updating with a whitespace-only description
stores the trimmed (empty) description. -/
theorem description_trimmed_witness :
    jsTrim c10Form.title ≠ "" ∧
    ((∃ t rest, addTask c10Form 4 [] = some (t :: rest) ∧
        t.description = jsTrim c10Form.description) ∧
      ∃ l', updateTask "q" c10Form [] = some l' ∧
        List.Forall₂ (fun t t' => t.id = "q" →
          t'.description = jsTrim c10Form.description) ([] : List Task) l') :=
  ⟨by decide, description_trimmed c10Form "q" 4 [] (by decide)⟩

end TodoApp
